import Mathlib

/-!
Shallow embedding of the core of the teamcity-ts repository: the
composition-tree base class (Construct) and the XML document model
(XmlDocument / XmlElement) from src/xml.ts and src/construct.ts.

Conventions of the embedding:
* JavaScript objects used as string-keyed records (attribute maps,
  document registries) are modelled as association lists in insertion
  order, which is the iteration order of Object.entries for the
  non-numeric keys this library uses.
* Mutation is modelled by state passing: a method that mutates its
  receiver returns the updated receiver.
* A builder callback, in the source a function mutating the element it
  is given, is modelled as a function from the element to the updated
  element.
* The parent back-pointer set by the Node methods cannot be a real
  reference in a purely functional tree, so it is recorded as a tag
  saying whether the element was attached to a document or to an
  element; no serialization code reads the pointer.
-/

/-- Tag recorded in the parent field of an element: the source stores a
reference to the owning XmlDocument or XmlElement. -/
inductive ParentRef where
  | document
  | element
deriving DecidableEq, Repr

/-- One element of an XmlDocument, from src/xml.ts: a name, optional
attributes, optional inner content, an optional parent back-pointer and
a list of children.  Optional fields that are undefined in JavaScript
are modelled with Option. -/
inductive XmlElement where
  | mk (name : String) (attributes : Option (List (String × String)))
       (content : Option String) (parent : Option ParentRef)
       (children : List XmlElement)

/-- Name of the element. -/
def XmlElement.name : XmlElement → String
  | .mk n _ _ _ _ => n

/-- Attribute map of the element (insertion-ordered). -/
def XmlElement.attributes : XmlElement → Option (List (String × String))
  | .mk _ a _ _ _ => a

/-- Inner text content of the element. -/
def XmlElement.content : XmlElement → Option String
  | .mk _ _ c _ _ => c

/-- Parent tag of the element. -/
def XmlElement.parent : XmlElement → Option ParentRef
  | .mk _ _ _ p _ => p

/-- Children of the element, in order. -/
def XmlElement.children : XmlElement → List XmlElement
  | .mk _ _ _ _ ch => ch

/-- Overwrite the parent tag, as the assignment node.parent does. -/
def XmlElement.withParent : XmlElement → Option ParentRef → XmlElement
  | .mk n a c _ ch, p => .mk n a c p ch

/-- Append a child at the end, as this.children.push(node) does. -/
def XmlElement.appendChild : XmlElement → XmlElement → XmlElement
  | .mk n a c p ch, e => .mk n a c p (ch ++ [e])

/-- The double-quote character, the only character escaped on render. -/
def quoteChar : Char := Char.ofNat 34

/-- Character-wise body of the attribute-value escape: the JavaScript
replaceAll of the one-character pattern quote by the entity string. -/
def escList : List Char → List Char
  | [] => []
  | c :: cs => (if c = quoteChar then ("&quot;").data else [c]) ++ escList cs

/-- Escape of an attribute value: every occurrence of the double quote
replaced by the quot entity, all other characters unchanged, exactly
what v.replaceAll with a one-character pattern does in the source. -/
def escapeQuotes (s : String) : String := ⟨escList s.data⟩

/-- Rendering of one attribute: a leading space, the raw key, and the
escaped value in double quotes. -/
def renderAttr (k v : String) : String :=
  " " ++ k ++ "=\"" ++ escapeQuotes v ++ "\""

/-- Rendering of the whole attribute map: nothing when the map is
undefined, otherwise each entry in order. -/
def renderAttrs : Option (List (String × String)) → String
  | none => ""
  | some l => String.join (l.map fun kv => renderAttr kv.1 kv.2)

/-- Interpolation of a possibly-undefined string, as a JavaScript
template literal renders it. -/
def jsInterp : Option String → String
  | none => "undefined"
  | some s => s

/-- Rendering of optional content inside a normal tag: the source
pushes the content only when it is defined, so undefined contributes
nothing. -/
def jsContent : Option String → String
  | none => ""
  | some c => c

mutual

/-- Serialization of an element to text, from XmlElement.toString with
fmt false (the fmt true path only post-processes this string through
the external xmlFmt formatter, which is outside this repository):
comment and CDATA markers render in special syntax; otherwise an
element with no children and undefined content self-closes, and any
other element renders its children in order, then its raw content, then
the closing tag. -/
def XmlElement.toString : XmlElement → String
  | .mk name attrs content _ children =>
    if name = "--" then "<!-- " ++ jsInterp content ++ " -->"
    else if name = "CDATA" then "<![CDATA[" ++ jsInterp content ++ "]]>"
    else
      "<" ++ name ++ renderAttrs attrs ++
      (if children.length = 0 ∧ content = none then " />"
       else ">" ++ XmlElement.childrenToString children ++
         jsContent content ++ "</" ++ name ++ ">")

/-- Concatenation of the renderings of a list of children, in order. -/
def XmlElement.childrenToString : List XmlElement → String
  | [] => ""
  | c :: cs => XmlElement.toString c ++ XmlElement.childrenToString cs

end

/-- Plain-data projection of an element tree, the result shape of
XmlElement.toJSON: name and children always present, attributes and
content present exactly when defined on the element (the source omits
the keys when the fields are undefined, which Option models). -/
inductive XmlJson where
  | mk (name : String) (attributes : Option (List (String × String)))
       (content : Option String) (children : List XmlJson)

mutual

/-- Projection of an element to plain data, from XmlElement.toJSON: the
name, the children recursively, and the attributes and content keys
only when those fields are defined.  The parent pointer is not part of
the projection. -/
def XmlElement.toJSON : XmlElement → XmlJson
  | .mk n a c _ ch => .mk n a c (XmlElement.toJSONList ch)

/-- Pointwise projection of a list of children. -/
def XmlElement.toJSONList : List XmlElement → List XmlJson
  | [] => []
  | e :: es => XmlElement.toJSON e :: XmlElement.toJSONList es

end

mutual

/-- Modelled from the spec: the test-harness-only helper that rebuilds
an equivalent element from the toJSON projection (the helper lives in
the repository's tests, which are not among the sources here).  It
restores the name, the attributes, the content and the children
recursively; the parent pointer is not part of the projection, so the
rebuilt element has none. -/
def rebuildFromJson : XmlJson → XmlElement
  | .mk n a c ch => .mk n a c none (rebuildFromJsonList ch)

/-- Pointwise rebuilding of a list of children. -/
def rebuildFromJsonList : List XmlJson → List XmlElement
  | [] => []
  | j :: js => rebuildFromJson j :: rebuildFromJsonList js

end

/-- One runtime argument to the overloaded Node methods, XmlElement
constructor and parseArgs: a name or content string, a plain
string-to-string record (attributes), a builder callback, a pre-built
element, or null.  A pre-built element or null in a non-head position
falls outside the declared overloads of the API and outside the record
interpretation (null is excluded by the explicit null check in the
source), so attribute extraction below matches record arguments. -/
inductive Arg where
  | str (s : String)
  | obj (attrs : List (String × String))
  | fn (b : XmlElement → XmlElement)
  | elem (e : XmlElement)
  | nullArg

/-- Result record of parseArgs. -/
structure NodeArgs where
  name : String
  content : Option String
  attributes : Option (List (String × String))
  builder : Option (XmlElement → XmlElement)

/-- Argument-shape parser, from parseArgs: rejects an empty argument
list and a first argument that is not a string; the content is the
first of args 1 and 2 that is a string, the attributes come from arg 1
when it is a record, and the builder is the first of args 1, 2 and 3
that is a function. -/
def parseArgs (args : List Arg) : Except String NodeArgs :=
  match args with
  | [] => .error "No args to parse"
  | .str name :: rest =>
    let content : Option String :=
      match rest.get? 0 with
      | some (.str s) => some s
      | _ => match rest.get? 1 with
             | some (.str s) => some s
             | _ => none
    let attributes : Option (List (String × String)) :=
      match rest.get? 0 with
      | some (.obj a) => some a
      | _ => none
    let builder : Option (XmlElement → XmlElement) :=
      match rest.get? 0 with
      | some (.fn b) => some b
      | _ => match rest.get? 1 with
             | some (.fn b) => some b
             | _ => match rest.get? 2 with
                    | some (.fn b) => some b
                    | _ => none
    .ok ⟨name, content, attributes, builder⟩
  | _ => .error "an element name must be provided"

/-- Application of an optional builder callback to a freshly created
element, as the Node methods do before attaching it. -/
def applyBuilder : Option (XmlElement → XmlElement) → XmlElement → XmlElement
  | some b, x => b x
  | none, x => x

/-- Child-node creation, from XmlElement.Node: a pre-built element as
first argument is attached as-is; otherwise the arguments are parsed, a
new element is created, the builder (when given) runs on it; in both
cases the attached element gets its parent pointer set to the receiver
and is appended as the last child, and Node returns it. -/
def XmlElement.Node (self : XmlElement) (args : List Arg) :
    Except String (XmlElement × XmlElement) :=
  match args with
  | .elem e :: _ =>
    let node := e.withParent (some .element)
    .ok (self.appendChild node, node)
  | _ => do
    let pa ← parseArgs args
    let node := (applyBuilder pa.builder
      (XmlElement.mk pa.name pa.attributes pa.content none [])).withParent
      (some ParentRef.element)
    .ok (self.appendChild node, node)

/-- Comment helper, from XmlElement.Comment: a child node with the
reserved comment marker name and the given content. -/
def XmlElement.Comment (self : XmlElement) (value : String) :
    Except String (XmlElement × XmlElement) :=
  self.Node [.str "--", .str value]

/-- CDATA helper, from XmlElement.CDATA: a child node with the reserved
CDATA marker name and the given content. -/
def XmlElement.CDATA (self : XmlElement) (value : String) :
    Except String (XmlElement × XmlElement) :=
  self.Node [.str "CDATA", .str value]

/-- An XML document, from src/xml.ts: its only state is the optional
root element, undefined until the first Node call sets it. -/
structure XmlDocument where
  root : Option XmlElement

/-- Root-node creation, from XmlDocument.Node: fails whenever the
document already has a root, before even looking at the arguments;
otherwise builds or takes the element exactly as XmlElement.Node does,
sets its parent pointer to the document, makes it the root and returns
it. -/
def XmlDocument.Node (doc : XmlDocument) (args : List Arg) :
    Except String (XmlDocument × XmlElement) :=
  if doc.root.isSome then
    .error "An XmlDocument can only have a single root node"
  else
    match args with
    | .elem e :: _ =>
      let node := e.withParent (some .document)
      .ok (⟨some node⟩, node)
    | _ => do
      let pa ← parseArgs args
      let node := (applyBuilder pa.builder
        (XmlElement.mk pa.name pa.attributes pa.content none [])).withParent
        (some ParentRef.document)
      .ok (⟨some node⟩, node)

/-- Membership test of a key in an association list, as Map.has and the
undefined check on a record key behave. -/
def hasKey {K B : Type} [DecidableEq K] (m : List (K × B)) (k : K) : Bool :=
  m.any (fun kb => decide (kb.1 = k))

/-- Fragment-builder registration, from Construct._addXmlBuilder: the
pair is inserted at the end of this node's builder map only when the
key is not already present (a JavaScript Map keeps insertion order, so
the map is an association list and insertion appends). -/
def addXmlBuilder {K B : Type} [DecidableEq K]
    (m : List (K × B)) (k : K) (b : B) : List (K × B) :=
  if hasKey m k then m else m ++ [(k, b)]

/-- Folding a whole sequence of registrations into a builder map. -/
def addAllBuilders {K B : Type} [DecidableEq K]
    (m : List (K × B)) (regs : List (K × B)) : List (K × B) :=
  regs.foldl (fun acc r => addXmlBuilder acc r.1 r.2) m

/-- Keys of an association list in order. -/
def keysOf {K B : Type} (m : List (K × B)) : List K := m.map Prod.fst

/-- First-occurrence order of the keys of a registration sequence,
relative to a set of keys already seen: the keys a JavaScript Map ends
up with after inserting each registration with insert-if-absent. -/
def newKeys {K : Type} [DecidableEq K] (seen : List K) : List K → List K
  | [] => []
  | k :: ks =>
    if k ∈ seen then newKeys seen ks else k :: newKeys (seen ++ [k]) ks

/-- A node of the composition tree, from src/construct.ts, keeping the
fields the registry claims are about: the link to the parent scope
(null exactly at the root, hence the two constructors) and this node's
document registry, a record from output path to document in insertion
order.  The props bag and the builder map of a node play no part in
these operations and are modelled separately. -/
inductive Construct where
  | root (xmlDocs : List (String × XmlDocument))
  | child (scope : Construct) (xmlDocs : List (String × XmlDocument))

/-- Parent scope of a construct, none at the root. -/
def Construct.scope : Construct → Option Construct
  | .root _ => none
  | .child s _ => some s

/-- Document registry owned by this construct. -/
def Construct.xmlDocs : Construct → List (String × XmlDocument)
  | .root d => d
  | .child _ d => d

/-- Root of the composition tree, from Construct._rootNode: follow the
scope links until a construct with no parent. -/
def Construct.rootNode : Construct → Construct
  | .root d => .root d
  | .child p _ => Construct.rootNode p

/-- Insert-if-absent on a document registry, the body of _addXmlDoc
once the root is reached: a record assignment guarded by an undefined
check, so an existing entry at the path is kept and the new pair is
otherwise appended. -/
def insertDocIfAbsent (m : List (String × XmlDocument)) (p : String)
    (d : XmlDocument) : List (String × XmlDocument) :=
  if hasKey m p then m else m ++ [(p, d)]

/-- Document registration, from Construct._addXmlDoc: called on any
node, it walks up to the root and performs the insert-if-absent on the
root's document registry; every other node is untouched. -/
def Construct.addXmlDoc : Construct → String → XmlDocument → Construct
  | .root docs, p, d => .root (insertDocIfAbsent docs p d)
  | .child parent docs, p, d => .child (parent.addXmlDoc p d) docs

/-- A JavaScript runtime value as far as Construct.push can observe it:
an array of values, or one of the non-array shapes (a string, a number,
undefined, which is also what an absent key reads as). -/
inductive JsVal where
  | arr (xs : List JsVal)
  | str (s : String)
  | num (n : Int)
  | undef

/-- Whether a value is an array, as Array.isArray reports. -/
def JsVal.isArray : JsVal → Bool
  | .arr _ => true
  | _ => false

/-- A scope object as Construct.push sees it: a total map from string
keys to values, an absent key reading as undefined. -/
def Scope := String → JsVal

/-- Collection-push helper, from Construct.push: when the value at the
key is not an array (including absent and any non-array value) it is
replaced by a fresh empty array, then the new value is pushed onto the
array at the key; no other key changes. -/
def Construct.push (scope : Scope) (key : String) (value : JsVal) : Scope :=
  let base : List JsVal :=
    match scope key with
    | .arr xs => xs
    | _ => []
  fun k => if k = key then .arr (base ++ [value]) else scope k

/-- First-match lookup in an association list, the value a JavaScript
Map.get or record read returns given that insertion never duplicates a
key. -/
def firstVal {K B : Type} [DecidableEq K] (k : K) : List (K × B) → Option B
  | [] => none
  | kb :: rest => if kb.1 = k then some kb.2 else firstVal k rest

/-- Shapes of the argument list that parseArgs rejects: empty, or a
first argument that is neither a name string nor a pre-built element. -/
def badFirstArg : List Arg → Prop
  | [] => True
  | .str _ :: _ => False
  | .elem _ :: _ => False
  | _ :: _ => True

/-- Shapes of the argument list that the declared overloads of the Node
methods permit for the first argument: a name string or a pre-built
element. -/
def validFirstArg : List Arg → Prop
  | .str _ :: _ => True
  | .elem _ :: _ => True
  | _ => False

/-- Whether the first argument is a pre-built element, the condition
the Node methods test before falling back to parseArgs. -/
def isElemHead : List Arg → Prop
  | .elem _ :: _ => True
  | _ => False

theorem withParent_parent (e : XmlElement) (p : Option ParentRef) :
    (e.withParent p).parent = p := by
  cases e
  rfl

theorem appendChild_children (e x : XmlElement) :
    (e.appendChild x).children = e.children ++ [x] := by
  cases e
  rfl

theorem childrenToString_eq_join (l : List XmlElement) :
    XmlElement.childrenToString l = String.join (l.map XmlElement.toString) := by
  induction l with
  | nil => rfl
  | cons c cs ih =>
    apply String.ext
    simp [XmlElement.childrenToString, String.join_eq, String.data_append, ih]

/-- Claim C10: after Construct.push the key holds an array ending in
the pushed value; a previous array keeps its elements in order and
grows by one; any non-array previous value, absent or not, is replaced
by a fresh one-element array; no other key changes. -/
theorem push_spec (scope : Scope) (key : String) (value : JsVal) :
    (∃ xs, Construct.push scope key value key = JsVal.arr xs ∧
      xs.getLast? = some value) ∧
    (∀ xs, scope key = JsVal.arr xs →
      Construct.push scope key value key = JsVal.arr (xs ++ [value])) ∧
    ((scope key).isArray = false →
      Construct.push scope key value key = JsVal.arr [value]) ∧
    (∀ k, k ≠ key → Construct.push scope key value k = scope k) := by
  refine ⟨?_, ?_, ?_, ?_⟩
  · cases h : scope key <;>
      simp [Construct.push, h, List.getLast?_append]
  · intro xs h
    simp [Construct.push, h]
  · intro h
    cases hv : scope key <;> simp_all [Construct.push, JsVal.isArray]
  · intro k hk
    simp [Construct.push, hk]

/-- Non-vacuity of the hypotheses of push_spec at a concrete scope. -/
theorem push_spec_witness :
    (fun k => if k = "a" then JsVal.arr [JsVal.num 1] else JsVal.undef) "a" =
      JsVal.arr [JsVal.num 1] ∧
    Construct.push
      (fun k => if k = "a" then JsVal.arr [JsVal.num 1] else JsVal.undef)
      "a" (JsVal.num 2) "a" = JsVal.arr [JsVal.num 1, JsVal.num 2] :=
  ⟨by simp, by
    have h := (push_spec
      (fun k => if k = "a" then JsVal.arr [JsVal.num 1] else JsVal.undef)
      "a" (JsVal.num 2)).2.1 [JsVal.num 1] (by simp)
    simpa using h⟩

/-- Claim C3: a non-marker element with no children and undefined
content renders self-closing, attributes included; any other non-marker
element renders the opening tag, every child's rendering in children
order, the raw content after all children, and the closing tag. -/
theorem toString_tag_structure (name : String)
    (attrs : Option (List (String × String))) (content : Option String)
    (p : Option ParentRef) (children : List XmlElement)
    (h1 : name ≠ "--") (h2 : name ≠ "CDATA") :
    (children = [] → content = none →
      XmlElement.toString (.mk name attrs content p children) =
        "<" ++ name ++ renderAttrs attrs ++ " />") ∧
    (children ≠ [] ∨ content ≠ none →
      XmlElement.toString (.mk name attrs content p children) =
        "<" ++ name ++ renderAttrs attrs ++ ">" ++
        String.join (children.map XmlElement.toString) ++
        jsContent content ++ "</" ++ name ++ ">") := by
  constructor
  · rintro rfl rfl
    simp [XmlElement.toString, h1, h2]
  · intro h
    have hcond : ¬(children.length = 0 ∧ content = none) := by
      rcases h with h | h
      · exact fun hc => h (List.length_eq_zero.mp hc.1)
      · exact fun hc => h hc.2
    simp only [XmlElement.toString]
    rw [if_neg h1, if_neg h2, if_neg hcond, childrenToString_eq_join]
    simp [String.append_assoc]

/-- Non-vacuity of the hypotheses of toString_tag_structure at concrete
elements, one per branch. -/
theorem toString_tag_structure_witness :
    XmlElement.toString (.mk "a" (some [("id", "1")]) none none []) =
      "<" ++ "a" ++ renderAttrs (some [("id", "1")]) ++ " />" ∧
    XmlElement.toString
        (.mk "a" none (some "t") none [.mk "b" none none none []]) =
      "<" ++ "a" ++ renderAttrs none ++ ">" ++
        String.join ([XmlElement.mk "b" none none none []].map
          XmlElement.toString) ++ jsContent (some "t") ++ "</" ++ "a" ++ ">" :=
  ⟨(toString_tag_structure "a" (some [("id", "1")]) none none []
      (by decide) (by decide)).1 rfl rfl,
   (toString_tag_structure "a" none (some "t") none
      [XmlElement.mk "b" none none none []]
      (by decide) (by decide)).2 (Or.inl (by simp))⟩

/-- Claim C9: an element named with the comment marker renders as an
XML comment and one named with the CDATA marker renders as a CDATA
section, whatever attributes or children it carries (the rendering
emits neither); the Comment and CDATA helpers create marker nodes that
carry no attributes and no children. -/
theorem marker_rendering (v : String) (self : XmlElement)
    (attrs : Option (List (String × String))) (p : Option ParentRef)
    (ch : List XmlElement) :
    XmlElement.toString (.mk "--" attrs (some v) p ch) =
      "<!-- " ++ v ++ " -->" ∧
    XmlElement.toString (.mk "CDATA" attrs (some v) p ch) =
      "<![CDATA[" ++ v ++ "]]>" ∧
    XmlElement.Comment self v =
      .ok (self.appendChild (.mk "--" none (some v) (some .element) []),
        .mk "--" none (some v) (some .element) []) ∧
    XmlElement.CDATA self v =
      .ok (self.appendChild (.mk "CDATA" none (some v) (some .element) []),
        .mk "CDATA" none (some v) (some .element) []) :=
  ⟨rfl, rfl, rfl, rfl⟩

theorem escList_eq_flatten (l : List Char) :
    escList l =
      (l.map fun ch => if ch = quoteChar then ("&quot;").data else [ch]).flatten := by
  induction l with
  | nil => rfl
  | cons c cs ih => simp [escList, ih]

theorem escList_id_of_no_quote (l : List Char)
    (h : ∀ ch ∈ l, ch ≠ quoteChar) : escList l = l := by
  induction l with
  | nil => rfl
  | cons c cs ih =>
    have hc : c ≠ quoteChar := h c (by simp)
    simp [escList, hc, ih fun ch hm => h ch (by simp [hm])]

/-- Claim C6: rendering an attribute replaces every double quote of the
value by the quot entity and changes nothing else, so a value without a
double quote (for example one holding angle brackets, ampersands or
single quotes) is emitted unchanged, and text content is emitted raw
with no escaping at all. -/
theorem attribute_escaping (name k v c : String) (p : Option ParentRef)
    (h1 : name ≠ "--") (h2 : name ≠ "CDATA") :
    XmlElement.toString (.mk name (some [(k, v)]) (some c) p []) =
      "<" ++ name ++ " " ++ k ++ "=\"" ++ escapeQuotes v ++ "\"" ++ ">" ++
        c ++ "</" ++ name ++ ">" ∧
    escapeQuotes v =
      ⟨(v.data.map fun ch =>
        if ch = quoteChar then ("&quot;").data else [ch]).flatten⟩ ∧
    ((∀ ch ∈ v.data, ch ≠ quoteChar) → escapeQuotes v = v) := by
  refine ⟨?_, ?_, ?_⟩
  · simp only [XmlElement.toString]
    rw [if_neg h1, if_neg h2, if_neg (by simp)]
    apply String.ext
    simp [String.data_append, renderAttrs, renderAttr, String.join_eq,
      jsContent, XmlElement.childrenToString]
  · exact congrArg String.mk (escList_eq_flatten v.data)
  · intro h
    show String.mk (escList v.data) = v
    rw [escList_id_of_no_quote v.data h]
  
/-- Non-vacuity of the hypotheses of attribute_escaping: a value with a
quote is escaped, a value with an ampersand, a single quote and angle
brackets but no double quote passes through unchanged. -/
theorem attribute_escaping_witness :
    XmlElement.toString (.mk "a" (some [("x", "1\"2")]) (some "t") none []) =
      "<" ++ "a" ++ " " ++ "x" ++ "=\"" ++ escapeQuotes "1\"2" ++ "\"" ++
        ">" ++ "t" ++ "</" ++ "a" ++ ">" ∧
    escapeQuotes "1\"2" = "1&quot;2" ∧
    escapeQuotes "a&b\x27c<d" = "a&b\x27c<d" :=
  ⟨(attribute_escaping "a" "x" "1\"2" "t" none (by decide) (by decide)).1,
   by decide,
   (attribute_escaping "a" "x" "a&b\x27c<d" "t" none (by decide)
      (by decide)).2.2 (by decide)⟩

/-- Claim C8: an empty argument list, or a first argument that is
neither a name string nor a pre-built element, makes parseArgs throw,
so the same node-creation call on an element fails before any element
is created or attached. -/
theorem node_arg_rejection (self : XmlElement) (args : List Arg)
    (h : badFirstArg args) :
    (∃ m, parseArgs args = Except.error m) ∧
    (∃ m, XmlElement.Node self args = Except.error m) := by
  match args with
  | [] => exact ⟨⟨"No args to parse", rfl⟩, ⟨"No args to parse", rfl⟩⟩
  | .str _ :: _ => exact absurd h (by simp [badFirstArg])
  | .elem _ :: _ => exact absurd h (by simp [badFirstArg])
  | .obj _ :: _ =>
    exact ⟨⟨"an element name must be provided", rfl⟩,
      ⟨"an element name must be provided", rfl⟩⟩
  | .fn _ :: _ =>
    exact ⟨⟨"an element name must be provided", rfl⟩,
      ⟨"an element name must be provided", rfl⟩⟩
  | .nullArg :: _ =>
    exact ⟨⟨"an element name must be provided", rfl⟩,
      ⟨"an element name must be provided", rfl⟩⟩

/-- Non-vacuity of the hypotheses of node_arg_rejection: the empty call
and a call whose first argument is null are both rejected. -/
theorem node_arg_rejection_witness :
    (∃ m, parseArgs [] = Except.error m) ∧
    (∃ m, XmlElement.Node (.mk "r" none none none []) [Arg.nullArg] =
      Except.error m) :=
  ⟨(node_arg_rejection (.mk "r" none none none []) [] trivial).1,
   (node_arg_rejection (.mk "r" none none none []) [Arg.nullArg] trivial).2⟩

/-- Claim C1: on a document without a root, a Node call whose first
argument has one of the shapes the overloads declare succeeds, returns
an element whose parent pointer is the document, and makes that element
the root; on a document that already has a root, every Node call fails
with the duplicate-root error whatever the arguments, a pre-built
element or malformed arguments included. -/
theorem document_single_root (doc : XmlDocument) (args args2 : List Arg) :
    (doc.root = none → validFirstArg args →
      ∃ d n, XmlDocument.Node doc args = Except.ok (d, n) ∧
        d.root = some n ∧ n.parent = some ParentRef.document) ∧
    (doc.root.isSome = true →
      XmlDocument.Node doc args2 =
        Except.error "An XmlDocument can only have a single root node") := by
  constructor
  · intro hroot hvalid
    obtain ⟨r⟩ := doc
    have hr : r = none := hroot
    subst hr
    match args with
    | .str s :: rest => exact ⟨_, _, rfl, rfl, withParent_parent _ _⟩
    | .elem e :: rest => exact ⟨_, _, rfl, rfl, withParent_parent _ _⟩
    | [] => exact absurd hvalid (by simp [validFirstArg])
    | .obj _ :: _ => exact absurd hvalid (by simp [validFirstArg])
    | .fn _ :: _ => exact absurd hvalid (by simp [validFirstArg])
    | .nullArg :: _ => exact absurd hvalid (by simp [validFirstArg])
  · intro hsome
    obtain ⟨r⟩ := doc
    match r, hsome with
    | some e, _ => rfl

/-- Non-vacuity of the hypotheses of document_single_root: the first
call on an empty document succeeds and roots the element, the second
call fails even with an empty argument list. -/
theorem document_single_root_witness :
    (∃ d n, XmlDocument.Node ⟨none⟩ [Arg.str "a"] = Except.ok (d, n) ∧
      d.root = some n ∧ n.parent = some ParentRef.document) ∧
    XmlDocument.Node ⟨some (.mk "a" none none (some .document) [])⟩ [] =
      Except.error "An XmlDocument can only have a single root node" :=
  ⟨(document_single_root ⟨none⟩ [Arg.str "a"] []).1 rfl trivial,
   (document_single_root ⟨some (.mk "a" none none (some .document) [])⟩
      [] []).2 rfl⟩

/-- Claim C7: XmlElement.Node always returns the element it attached, a
pre-built first argument as-is and otherwise the freshly created
element after the nested-builder callback (when supplied) has been
applied to it before Node returns; in every case the attached element
has its parent pointer set to the receiver and is appended as the last
child of the receiver. -/
theorem element_node_attach (self : XmlElement) (args : List Arg) :
    (∀ e rest, args = Arg.elem e :: rest →
      XmlElement.Node self args =
        Except.ok (self.appendChild (e.withParent (some ParentRef.element)),
          e.withParent (some ParentRef.element))) ∧
    (∀ pa, ¬ isElemHead args → parseArgs args = Except.ok pa →
      XmlElement.Node self args =
        Except.ok (self.appendChild ((applyBuilder pa.builder
            (XmlElement.mk pa.name pa.attributes pa.content none [])).withParent
            (some ParentRef.element)),
          (applyBuilder pa.builder
            (XmlElement.mk pa.name pa.attributes pa.content none [])).withParent
            (some ParentRef.element))) ∧
    (∀ d n, XmlElement.Node self args = Except.ok (d, n) →
      n.parent = some ParentRef.element ∧ d = self.appendChild n ∧
      d.children = self.children ++ [n]) := by
  refine ⟨?_, ?_, ?_⟩
  · rintro e rest rfl
    rfl
  · intro pa hne hpa
    match args, hne with
    | .str s :: rest, _ =>
      have h := Except.ok.inj hpa
      subst h
      rfl
    | [], _ => exact Except.noConfusion hpa
    | .obj _ :: _, _ => exact Except.noConfusion hpa
    | .fn _ :: _, _ => exact Except.noConfusion hpa
    | .nullArg :: _, _ => exact Except.noConfusion hpa
  · intro d n h
    match args with
    | .elem e :: rest =>
      obtain ⟨h1, h2⟩ := Prod.mk.inj (Except.ok.inj h)
      subst h1
      subst h2
      exact ⟨withParent_parent _ _, rfl, appendChild_children _ _⟩
    | .str s :: rest =>
      obtain ⟨h1, h2⟩ := Prod.mk.inj (Except.ok.inj h)
      subst h1
      subst h2
      exact ⟨withParent_parent _ _, rfl, appendChild_children _ _⟩
    | [] => exact Except.noConfusion h
    | .obj _ :: _ => exact Except.noConfusion h
    | .fn _ :: _ => exact Except.noConfusion h
    | .nullArg :: _ => exact Except.noConfusion h

/-- Non-vacuity of the hypotheses of element_node_attach: attaching a
pre-built element appends it with its parent set, and a call with a
name and a builder returns the element the builder produced. -/
theorem element_node_attach_witness :
    XmlElement.Node (.mk "r" none none none [])
        [Arg.elem (.mk "kid" none none none [])] =
      Except.ok (.mk "r" none none none
          [.mk "kid" none none (some .element) []],
        .mk "kid" none none (some .element) []) ∧
    XmlElement.Node (.mk "r" none none none [])
        [Arg.str "kid", Arg.fn (fun x => x.appendChild
          (.mk "deep" none none none []))] =
      Except.ok (.mk "r" none none none
          [.mk "kid" none none (some .element)
            [.mk "deep" none none none []]],
        .mk "kid" none none (some .element)
          [.mk "deep" none none none []]) := by
  constructor
  · have h := (element_node_attach (.mk "r" none none none [])
      [Arg.elem (.mk "kid" none none none [])]).1
      (.mk "kid" none none none []) [] rfl
    simpa using h
  · have h := (element_node_attach (.mk "r" none none none [])
      [Arg.str "kid", Arg.fn (fun x => x.appendChild
        (.mk "deep" none none none []))]).2.1
      ⟨"kid", none, none, some (fun x => x.appendChild
        (.mk "deep" none none none []))⟩
      (by simp [isElemHead]) rfl
    simpa using h

theorem rebuild_toJSONList_length (l : List XmlElement) :
    (rebuildFromJsonList (XmlElement.toJSONList l)).length = l.length := by
  induction l with
  | nil => rfl
  | cons e es ih =>
    simp [XmlElement.toJSONList, rebuildFromJsonList, ih]

mutual

theorem roundTripElem : ∀ e : XmlElement,
    XmlElement.toString (rebuildFromJson (XmlElement.toJSON e)) =
      XmlElement.toString e
  | .mk n a c p ch => by
    have hlen : (rebuildFromJsonList (XmlElement.toJSONList ch)).length =
        ch.length := rebuild_toJSONList_length ch
    have hcts : XmlElement.childrenToString
        (rebuildFromJsonList (XmlElement.toJSONList ch)) =
        XmlElement.childrenToString ch := roundTripList ch
    simp only [XmlElement.toJSON, rebuildFromJson, XmlElement.toString,
      hlen, hcts]

theorem roundTripList : ∀ l : List XmlElement,
    XmlElement.childrenToString (rebuildFromJsonList (XmlElement.toJSONList l)) =
      XmlElement.childrenToString l
  | [] => rfl
  | e :: es => by
    simp only [XmlElement.toJSONList, rebuildFromJsonList,
      XmlElement.childrenToString, roundTripElem e, roundTripList es]

end

/-- Claim C2: rebuilding an element tree from its toJSON projection and
serializing it yields exactly the string the original tree serializes
to, so toJSON loses nothing that toString depends on. -/
theorem toJSON_lossless (e : XmlElement) :
    XmlElement.toString (rebuildFromJson (XmlElement.toJSON e)) =
      XmlElement.toString e :=
  roundTripElem e

theorem hasKey_iff_mem {K B : Type} [DecidableEq K]
    (m : List (K × B)) (k : K) : hasKey m k = true ↔ k ∈ keysOf m := by
  simp only [hasKey, keysOf, List.any_eq_true, decide_eq_true_eq,
    List.mem_map]

theorem hasKey_eq_isSome {K B : Type} [DecidableEq K]
    (m : List (K × B)) (k : K) : hasKey m k = (firstVal k m).isSome := by
  induction m with
  | nil => rfl
  | cons kb rest ih =>
    by_cases h : kb.1 = k
    · simp [hasKey, firstVal, h]
    · simp only [hasKey, List.any_cons, decide_eq_true_eq, firstVal,
        if_neg h, h, decide_False, Bool.false_or] at ih ⊢
      exact ih

theorem firstVal_append {K B : Type} [DecidableEq K] (k : K)
    (m m2 : List (K × B)) :
    firstVal k (m ++ m2) =
      (match firstVal k m with
       | some b => some b
       | none => firstVal k m2) := by
  induction m with
  | nil => rfl
  | cons kb rest ih =>
    by_cases h : kb.1 = k <;> simp [firstVal, h, ih]

theorem firstVal_addAll {K B : Type} [DecidableEq K] (regs : List (K × B)) :
    ∀ (m : List (K × B)) (k : K),
    firstVal k (addAllBuilders m regs) =
      (match firstVal k m with
       | some b => some b
       | none => firstVal k regs) := by
  induction regs with
  | nil =>
    intro m k
    cases h : firstVal k m <;> simp [addAllBuilders, h, firstVal]
  | cons r rs ih =>
    intro m k
    have step : addAllBuilders m (r :: rs) =
        addAllBuilders (addXmlBuilder m r.1 r.2) rs := rfl
    rw [step, ih]
    by_cases hk : hasKey m r.1
    · simp only [addXmlBuilder, if_pos hk]
      cases h2 : firstVal k m with
      | some b => simp
      | none =>
        simp only []
        by_cases hrk : r.1 = k
        · subst hrk
          rw [hasKey_eq_isSome, h2] at hk
          exact absurd hk (by simp)
        · simp [firstVal, hrk]
    · simp only [addXmlBuilder, if_neg hk, firstVal_append]
      cases h2 : firstVal k m with
      | some b => simp
      | none =>
        by_cases hrk : r.1 = k <;> simp [firstVal, hrk]

theorem keysOf_append {K B : Type} (m m2 : List (K × B)) :
    keysOf (m ++ m2) = keysOf m ++ keysOf m2 := by
  simp [keysOf]

theorem keysOf_addAll {K B : Type} [DecidableEq K] (regs : List (K × B)) :
    ∀ m : List (K × B),
    keysOf (addAllBuilders m regs) =
      keysOf m ++ newKeys (keysOf m) (keysOf regs) := by
  induction regs with
  | nil => intro m; simp [addAllBuilders, newKeys]
  | cons r rs ih =>
    intro m
    have step : addAllBuilders m (r :: rs) =
        addAllBuilders (addXmlBuilder m r.1 r.2) rs := rfl
    rw [step, ih]
    have hkeys : keysOf (r :: rs) = r.1 :: keysOf rs := rfl
    rw [hkeys]
    by_cases hk : hasKey m r.1
    · have hmem : r.1 ∈ keysOf m := (hasKey_iff_mem m r.1).mp hk
      simp only [addXmlBuilder, if_pos hk]
      rw [newKeys, if_pos hmem]
    · have hmem : r.1 ∉ keysOf m := fun hm =>
        absurd ((hasKey_iff_mem m r.1).mpr hm) (by simp [hk])
      simp only [addXmlBuilder, if_neg hk]
      rw [keysOf_append, newKeys, if_neg hmem]
      have hsingle : keysOf [r] = [r.1] := rfl
      rw [hsingle]
      simp [List.append_assoc]

theorem mem_newKeys {K : Type} [DecidableEq K] (ks : List K) :
    ∀ (seen : List K) (k : K),
    k ∈ newKeys seen ks ↔ k ∈ ks ∧ k ∉ seen := by
  induction ks with
  | nil => intro seen k; simp [newKeys]
  | cons k0 rest ih =>
    intro seen k
    by_cases h : k0 ∈ seen
    · rw [newKeys, if_pos h, ih]
      constructor
      · rintro ⟨hk, hs⟩
        exact ⟨List.mem_cons_of_mem _ hk, hs⟩
      · rintro ⟨hk, hs⟩
        rcases List.mem_cons.mp hk with rfl | hk
        · exact absurd h hs
        · exact ⟨hk, hs⟩
    · rw [newKeys, if_neg h]
      simp only [List.mem_cons, ih (seen ++ [k0]) k, List.mem_append,
        List.mem_singleton, List.not_mem_nil]
      by_cases hk0 : k = k0
      · subst hk0
        tauto
      · tauto

theorem nodup_newKeys {K : Type} [DecidableEq K] (ks : List K) :
    ∀ seen : List K, (newKeys seen ks).Nodup := by
  induction ks with
  | nil => intro seen; simp [newKeys]
  | cons k0 rest ih =>
    intro seen
    by_cases h : k0 ∈ seen
    · rw [newKeys, if_pos h]
      exact ih seen
    · rw [newKeys, if_neg h]
      refine List.nodup_cons.mpr ⟨?_, ih _⟩
      rw [mem_newKeys]
      rintro ⟨-, habs⟩
      exact habs (by simp)

/-- Claim C4: registering a fragment builder under a key already in the
map is a no-op, so after any sequence of registrations the map holds,
for each key, exactly the first callback registered under it, exactly
once, and the keys appear in first-registration order. -/
theorem builder_registration_spec {K B : Type} [DecidableEq K]
    (m regs : List (K × B)) (k : K) (b : B) :
    (hasKey m k = true → addXmlBuilder m k b = m) ∧
    firstVal k (addAllBuilders ([] : List (K × B)) regs) =
      firstVal k regs ∧
    keysOf (addAllBuilders ([] : List (K × B)) regs) =
      newKeys [] (keysOf regs) ∧
    List.count k (keysOf (addAllBuilders ([] : List (K × B)) regs)) =
      if k ∈ keysOf regs then 1 else 0 := by
  have hkeys : keysOf (addAllBuilders ([] : List (K × B)) regs) =
      newKeys [] (keysOf regs) := by
    have h := keysOf_addAll regs []
    simpa [keysOf] using h
  refine ⟨?_, ?_, hkeys, ?_⟩
  · intro h
    simp [addXmlBuilder, h]
  · have h := firstVal_addAll regs [] k
    simpa [firstVal] using h
  · have hnd : (newKeys [] (keysOf regs)).Nodup :=
      nodup_newKeys (keysOf regs) []
    have hmem : k ∈ newKeys [] (keysOf regs) ↔ k ∈ keysOf regs := by
      simp [mem_newKeys]
    rw [hkeys]
    by_cases hm : k ∈ keysOf regs
    · rw [if_pos hm]
      exact List.count_eq_one_of_mem hnd (hmem.mpr hm)
    · rw [if_neg hm]
      exact List.count_eq_zero_of_not_mem (fun hc => hm (hmem.mp hc))

/-- Non-vacuity of the hypotheses of builder_registration_spec at a
concrete registration sequence with a duplicated key. -/
theorem builder_registration_witness :
    addXmlBuilder [((1 : Nat), (10 : Nat))] 1 99 = [(1, 10)] ∧
    firstVal 1 (addAllBuilders ([] : List (Nat × Nat))
      [(1, 10), (2, 20), (1, 30)]) = firstVal 1 [(1, 10), (2, 20), (1, 30)] ∧
    keysOf (addAllBuilders ([] : List (Nat × Nat))
      [(1, 10), (2, 20), (1, 30)]) =
      newKeys [] (keysOf [((1 : Nat), (10 : Nat)), (2, 20), (1, 30)]) :=
  ⟨(builder_registration_spec [(1, 10)] [(1, 10), (2, 20), (1, 30)] 1
      99).1 (by decide),
   (builder_registration_spec [(1, 10)] [(1, 10), (2, 20), (1, 30)] 1
      99).2.1,
   (builder_registration_spec [(1, 10)] [(1, 10), (2, 20), (1, 30)] 1
      99).2.2.1⟩

theorem rootNode_addXmlDoc (c : Construct) (p : String) (d : XmlDocument) :
    Construct.rootNode (c.addXmlDoc p d) =
      .root (insertDocIfAbsent (Construct.rootNode c).xmlDocs p d) := by
  induction c with
  | root docs => rfl
  | child parent docs ih =>
    simp [Construct.addXmlDoc, Construct.rootNode, ih]

/-- Claim C5: document registration walks to the root and inserts the
pair into the root's registry only when the path is absent; a duplicate
path is silently dropped and the registry, in particular the document
already at that path, is unchanged (first writer wins); a fresh path
ends up mapped to the proposed document; the registry of a non-root
caller itself is never touched. -/
theorem document_registration_spec (c : Construct) (p : String)
    (d : XmlDocument) :
    (Construct.rootNode (c.addXmlDoc p d)).xmlDocs =
      insertDocIfAbsent (Construct.rootNode c).xmlDocs p d ∧
    (hasKey (Construct.rootNode c).xmlDocs p = true →
      (Construct.rootNode (c.addXmlDoc p d)).xmlDocs =
        (Construct.rootNode c).xmlDocs) ∧
    (hasKey (Construct.rootNode c).xmlDocs p = false →
      firstVal p (Construct.rootNode (c.addXmlDoc p d)).xmlDocs = some d) ∧
    (c.scope ≠ none → (c.addXmlDoc p d).xmlDocs = c.xmlDocs) := by
  have hroot : (Construct.rootNode (c.addXmlDoc p d)).xmlDocs =
      insertDocIfAbsent (Construct.rootNode c).xmlDocs p d := by
    rw [rootNode_addXmlDoc]
    rfl
  refine ⟨hroot, ?_, ?_, ?_⟩
  · intro h
    rw [hroot, insertDocIfAbsent, if_pos h]
  · intro h
    rw [hroot, insertDocIfAbsent, if_neg (by simp [h]), firstVal_append]
    have hnone : firstVal p (Construct.rootNode c).xmlDocs = none := by
      have := hasKey_eq_isSome (Construct.rootNode c).xmlDocs p
      rw [h] at this
      exact Option.not_isSome_iff_eq_none.mp (by simp [← this])
    rw [hnone]
    simp [firstVal]
  · intro h
    cases c with
    | root docs => exact absurd rfl h
    | child parent docs => rfl

/-- Non-vacuity of the hypotheses of document_registration_spec: from a
child node, a duplicate path leaves the root registry unchanged, and a
fresh path is inserted; the child's own registry stays empty. -/
theorem document_registration_witness :
    (Construct.rootNode ((Construct.child
        (.root [("p1", XmlDocument.mk none)]) []).addXmlDoc "p1"
        (XmlDocument.mk (some (.mk "x" none none none []))))).xmlDocs =
      [("p1", XmlDocument.mk none)] ∧
    firstVal "p2" (Construct.rootNode ((Construct.child
        (.root [("p1", XmlDocument.mk none)]) []).addXmlDoc "p2"
        (XmlDocument.mk (some (.mk "x" none none none []))))).xmlDocs =
      some (XmlDocument.mk (some (.mk "x" none none none []))) ∧
    ((Construct.child (.root [("p1", XmlDocument.mk none)]) []).addXmlDoc
        "p1" (XmlDocument.mk (some (.mk "x" none none none [])))).xmlDocs =
      ([] : List (String × XmlDocument)) :=
  ⟨(document_registration_spec
      (Construct.child (.root [("p1", XmlDocument.mk none)]) []) "p1"
      (XmlDocument.mk (some (.mk "x" none none none [])))).2.1 rfl,
   (document_registration_spec
      (Construct.child (.root [("p1", XmlDocument.mk none)]) []) "p2"
      (XmlDocument.mk (some (.mk "x" none none none [])))).2.2.1 rfl,
   (document_registration_spec
      (Construct.child (.root [("p1", XmlDocument.mk none)]) []) "p1"
      (XmlDocument.mk (some (.mk "x" none none none [])))).2.2.2
      (by simp [Construct.scope])⟩
